import Mathlib

/-!
Verification development for the cosmonaut object-document mapper.

The definitions below are a shallow embedding of the repository's core:
the schema builder and transform pipeline (src/schema.ts), the mutation
engine on models (src/baseModel.ts), and the atomic retry coordinator
(src/atomic.ts).  JavaScript objects are modelled as association lists,
JSON values as an inductive type, thrown errors as the error side of
Except carrying the numeric status code the source inspects (e.code),
and the asynchronous store as an explicit oracle of call outcomes.
-/

/-- A JSON/JavaScript value as it travels on the wire: undefined, null,
booleans, numbers, strings, arrays and plain objects (association lists
in property order). -/
inductive JsValue where
  | undefined
  | null
  | bool (b : Bool)
  | num (n : Int)
  | str (s : String)
  | arr (elems : List JsValue)
  | obj (fields : List (String × JsValue))

/-- The strict equality test value === undefined. -/
def JsValue.isUndefined : JsValue → Bool
  | .undefined => true
  | _ => false

/-- Association-list lookup on string-keyed objects, first match wins
(JavaScript object keys are unique, so this is plain property lookup). -/
def assocLookup {β : Type} : List (String × β) → String → Option β
  | [], _ => none
  | (k, v) :: rest, n => if k = n then some v else assocLookup rest n

/-- Key update with JavaScript object-spread semantics: spreading
a map and then writing one key keeps an existing key at its original
position with the new value, and appends a fresh key at the end. -/
def assocSet {β : Type} : List (String × β) → String → β → List (String × β)
  | [], n, v => [(n, v)]
  | (k, w) :: rest, n, v =>
    if k = n then (n, v) :: rest else (k, w) :: assocSet rest n v

/-- Property access object?.[part] used by lookupCosmosPath: objects give
their property (or undefined when absent); undefined, null and every
non-object value give undefined. -/
def jsAccess (v : JsValue) (part : String) : JsValue :=
  match v with
  | .obj fields => (assocLookup fields part).getD .undefined
  | _ => .undefined

/-- lookupCosmosPath from src/schema.ts: drop the leading slash, split the
path on slashes, and walk the object one optional-chained property access
per segment. -/
def lookupCosmosPath (object : JsValue) (path : String) : JsValue :=
  ((path.drop 1).splitOn "/").foldl jsAccess object

/-- A runtime (application-side) property value: either a plain JSON
value, or a JavaScript Set of strings, modelled as its insertion-ordered
duplicate-free element list.  The Set case is what the favoriteColors
transform of the test schema produces. -/
inductive RValue where
  | js (v : JsValue)
  | set (elems : List String)

/-- Transform from src/schema.ts: a pair of functions mapping the stored
representation to the runtime representation and back. -/
structure Transform where
  deserialize : JsValue → RValue
  serialize : RValue → JsValue

/-- Per-field configuration held in the schema map (IFieldConfig in
src/schema.ts): required flag, the JSON-Schema validation fragment, and
an optional transform codec. -/
structure FieldConfig where
  required : Bool
  schema : JsValue
  transform : Option Transform

/-- A single index entry (Cosmos.Index): data type and kind. -/
structure CosmosIndex where
  dataType : String
  kind : String
deriving DecidableEq

/-- An includedPaths entry of an indexing policy. -/
structure IncludedPath where
  path : String
  indexes : List CosmosIndex
deriving DecidableEq

/-- An excludedPaths entry of an indexing policy. -/
structure ExcludedPath where
  path : String
deriving DecidableEq

/-- Cosmos indexing policy: optional lists of included and excluded
paths (only the parts the builder touches are modelled). -/
structure IndexingPolicy where
  includedPaths : Option (List IncludedPath) := none
  excludedPaths : Option (List ExcludedPath) := none
deriving DecidableEq

/-- One unique-key constraint: the list of paths it covers. -/
structure UniqueKey where
  paths : List String
deriving DecidableEq

/-- Cosmos unique-key policy. -/
structure UniqueKeyPolicy where
  uniqueKeys : List UniqueKey
deriving DecidableEq

/-- The partition-key entry of a container definition.  The builder
stores the object form (paths plus version); the legacy string form can
also inhabit the field, and BaseModel.partitionKey distinguishes the
two with a typeof check. -/
inductive PartitionKeySetting where
  | path (p : String)
  | keyDef (paths : List String) (version : Nat)
deriving DecidableEq

/-- Cosmos conflict-resolution policy (opaque blob: the builder stores
it unchanged). -/
structure ConflictResolutionPolicy where
  mode : Option String := none
  conflictResolutionPath : Option String := none
  conflictResolutionProcedure : Option String := none
deriving DecidableEq

/-- Cosmos geospatial configuration. -/
structure GeospatialConfig where
  type : String
deriving DecidableEq

/-- The container definition built up by the Schema builder
(Cosmos.ContainerRequest fields that the builder writes). -/
structure ContainerDefinition where
  id : String
  defaultTtl : Option Int := none
  indexingPolicy : Option IndexingPolicy := none
  uniqueKeyPolicy : Option UniqueKeyPolicy := none
  partitionKey : Option PartitionKeySetting := none
  conflictResolutionPolicy : Option ConflictResolutionPolicy := none
  geospatialConfig : Option GeospatialConfig := none
  throughput : Option Nat := none
  maxThroughput : Option Nat := none
  autoUpgradePolicy : Option String := none

/-- The Schema of src/schema.ts: the per-field schema map plus the
container definition.  BasicSchema and Schema are collapsed into one
structure, since BasicSchema only strips the typed-string machinery. -/
structure Schema where
  schemaMap : List (String × FieldConfig)
  definition : ContainerDefinition

/-- The concat helper of src/schema.ts: append to the array when it is
defined, otherwise start from the new items. -/
def concatOpt {α : Type} (arr : Option (List α)) (items : List α) : List α :=
  match arr with
  | some a => a ++ items
  | none => items

/-- Input to Schema.field: the destructured ISchemaField configuration
object.  isRequired and transform are picked off; the remaining keys
form the validation fragment. -/
structure FieldInput where
  isRequired : Option Bool := none
  transform : Option Transform := none
  fragment : JsValue := .obj []

/-- Schema.field: insert (or overwrite) the named field in the schema
map; required is set when isRequired is truthy or a non-optional asType
marker was supplied (typePresent = some isOptional).  The container
definition is passed through unchanged. -/
def Schema.field (s : Schema) (name : String) (typePresent : Option Bool)
    (cfg : FieldInput) : Schema :=
  ⟨assocSet s.schemaMap name
      ⟨(cfg.isRequired == some true) || (typePresent == some false),
       cfg.fragment, cfg.transform⟩,
   s.definition⟩

/-- Schema.ttl: functional update of defaultTtl. -/
def Schema.ttl (s : Schema) (duration : Option Int) : Schema :=
  ⟨s.schemaMap, { s.definition with defaultTtl := duration }⟩

/-- Schema.enableTtlWithoutDefault: equivalent to ttl (-1). -/
def Schema.enableTtlWithoutDefault (s : Schema) : Schema :=
  s.ttl (some (-1))

/-- Schema.removeFromIndex: append the paths to the indexing policy's
excluded paths, spreading the previous policy. -/
def Schema.removeFromIndex (s : Schema) (paths : List String) : Schema :=
  ⟨s.schemaMap,
   { s.definition with
       indexingPolicy := some
         { includedPaths := s.definition.indexingPolicy.bind IndexingPolicy.includedPaths
           excludedPaths := some (concatOpt
             (s.definition.indexingPolicy.bind IndexingPolicy.excludedPaths)
             (paths.map ExcludedPath.mk)) } }⟩

/-- Schema.removeAllFromIndex: removeFromIndex of the whole-document
wildcard path. -/
def Schema.removeAllFromIndex (s : Schema) : Schema :=
  s.removeFromIndex ["/*"]

/-- Schema.addToIndex: append one path-with-indexes entry to the
indexing policy's included paths, spreading the previous policy. -/
def Schema.addToIndex (s : Schema) (path : String) (indexes : List CosmosIndex) : Schema :=
  ⟨s.schemaMap,
   { s.definition with
       indexingPolicy := some
         { includedPaths := some (concatOpt
             (s.definition.indexingPolicy.bind IndexingPolicy.includedPaths)
             [⟨path, indexes⟩])
           excludedPaths := s.definition.indexingPolicy.bind IndexingPolicy.excludedPaths } }⟩

/-- Schema.unique: append one unique-key constraint over the given
paths. -/
def Schema.unique (s : Schema) (paths : List String) : Schema :=
  ⟨s.schemaMap,
   { s.definition with
       uniqueKeyPolicy := some
         ⟨concatOpt (s.definition.uniqueKeyPolicy.map UniqueKeyPolicy.uniqueKeys)
            [⟨paths⟩]⟩ }⟩

/-- Schema.partitionKey: store the single-path object form, with
version 2 when long partition keys are enabled and 1 otherwise. -/
def Schema.partitionKey (s : Schema) (path : String) (partitionKeyCanBeLong : Bool) : Schema :=
  ⟨s.schemaMap,
   { s.definition with
       partitionKey := some (.keyDef [path] (if partitionKeyCanBeLong then 2 else 1)) }⟩

/-- Schema.setConflictResolution: store the policy unchanged. -/
def Schema.setConflictResolution (s : Schema) (policy : ConflictResolutionPolicy) : Schema :=
  ⟨s.schemaMap, { s.definition with conflictResolutionPolicy := some policy }⟩

/-- Schema.setGeospatialConfig: store the geospatial type. -/
def Schema.setGeospatialConfig (s : Schema) (type : String) : Schema :=
  ⟨s.schemaMap, { s.definition with geospatialConfig := some ⟨type⟩ }⟩

/-- The argument of Schema.setThroughput: either a plain RU number or a
configuration object whose present keys are spread over the
definition. -/
inductive ThroughputInput where
  | ru (n : Nat)
  | config (throughput : Option Nat) (maxThroughput : Option Nat)
      (autoUpgradePolicy : Option String)

/-- Schema.setThroughput: a number sets throughput; an object overrides
exactly the keys it carries (object-spread semantics). -/
def Schema.setThroughput (s : Schema) (t : ThroughputInput) : Schema :=
  match t with
  | .ru n => ⟨s.schemaMap, { s.definition with throughput := some n }⟩
  | .config th mx up =>
      ⟨s.schemaMap,
       { s.definition with
           throughput := match th with | some v => some v | none => s.definition.throughput
           maxThroughput := match mx with | some v => some v | none => s.definition.maxThroughput
           autoUpgradePolicy := match up with | some v => some v | none => s.definition.autoUpgradePolicy }⟩

/-- createSchema from src/schema.ts: one required id field of type
string, and a definition holding only the container name. -/
def createSchema (containerName : String) : Schema :=
  ⟨[("id", ⟨true, .obj [("type", .str "string")], none⟩)], { id := containerName }⟩

/-- transformFromDatabase: map over the raw document's own keys,
deserializing each value whose schema field carries a transform and
passing every other value through. -/
def transformFromDatabase (schema : Schema) (values : List (String × JsValue)) :
    List (String × RValue) :=
  values.map fun kv =>
    (kv.1,
     match (assocLookup schema.schemaMap kv.1).bind FieldConfig.transform with
     | some t => t.deserialize kv.2
     | none => .js kv.2)

/-- Canonical wire form of a runtime value: plain JSON values are
themselves; a JavaScript Set serializes (via JSON) to an empty object,
which is what reaches the store if a Set is written without a
transform. -/
def rvalueWire (v : RValue) : JsValue :=
  match v with
  | .js j => j
  | .set _ => .obj []

/-- transformToDatabase: map over the props' own keys, serializing each
value whose schema field carries a transform and passing every other
value through (shown here already in its wire form). -/
def transformToDatabase (schema : Schema) (props : List (String × RValue)) :
    List (String × JsValue) :=
  props.map fun kv =>
    (kv.1,
     match (assocLookup schema.schemaMap kv.1).bind FieldConfig.transform with
     | some t => t.serialize kv.2
     | none => rvalueWire kv.2)

/-- The lifecycle hooks of BaseModel (no-ops by default, overridable). -/
inductive Hook where
  | beforeCreate
  | beforePersist
  | afterPersist
  | afterCreate
  | beforeUpdate
  | afterUpdate
deriving DecidableEq

/-- The etag-based If-Match access condition attached to a conditional
write (Cosmos accessCondition). -/
structure AccessCondition where
  type : String
  condition : String
deriving DecidableEq

/-- The property bag of a model instance: the schema fields in property
order, plus the _etag metadata entry, the only resource-metadata
property the mutation engine inspects. -/
structure MProps where
  fields : List (String × RValue)
  etag : Option String

/-- The document transmitted for a property bag: the JSON serialization
of the schema fields (metadata is ignored on write). -/
def wireFields (fields : List (String × RValue)) : List (String × JsValue) :=
  fields.map fun kv => (kv.1, rvalueWire kv.2)

/-- Observable steps of one mutation-engine operation: a hook
invocation, an unconditional insert carrying its document, or an upsert
carrying its document and access condition. -/
inductive Event where
  | hookEv (h : Hook)
  | netCreate (doc : List (String × JsValue))
  | netUpsert (doc : List (String × JsValue)) (cond : Option AccessCondition)

/-- Outcomes of the store calls the mutation engine makes: items.create
and items.upsert either return the stored resource (which becomes the
model's new props) or throw an error with a numeric status code. -/
structure StoreOps where
  createItem : List (String × JsValue) → Except Nat MProps
  upsertItem : List (String × JsValue) → Option AccessCondition → Except Nat MProps

/-- An assignment of outcomes to hook invocations; ok () is the default
no-op hook, an error models a hook override that throws. -/
def Hooks : Type := Hook → Except Nat Unit

/-- The default hooks: every lifecycle hook is a no-op. -/
def defHooks : Hooks := fun _ => .ok ()

/-- The hook invocations recorded in a trace, in order. -/
def hookSeq (trace : List Event) : List Hook :=
  trace.filterMap fun e => match e with | .hookEv h => some h | _ => none

/-- BaseModel.create: run beforeCreate then beforePersist, send the
props with an unconditional insert, adopt the returned resource, then
run afterPersist and afterCreate.  The result pairs the outcome with
the trace of hook invocations and network calls. -/
def BaseModel.create (hooks : Hooks) (st : StoreOps) (props : MProps) :
    Except Nat MProps × List Event :=
  let t0 := [Event.hookEv .beforeCreate]
  match hooks .beforeCreate with
  | .error e => (.error e, t0)
  | .ok _ =>
    let t1 := t0 ++ [Event.hookEv .beforePersist]
    match hooks .beforePersist with
    | .error e => (.error e, t1)
    | .ok _ =>
      let doc := wireFields props.fields
      let t2 := t1 ++ [Event.netCreate doc]
      match st.createItem doc with
      | .error e => (.error e, t2)
      | .ok res =>
        let t3 := t2 ++ [Event.hookEv .afterPersist]
        match hooks .afterPersist with
        | .error e => (.error e, t3)
        | .ok _ =>
          let t4 := t3 ++ [Event.hookEv .afterCreate]
          match hooks .afterCreate with
          | .error e => (.error e, t4)
          | .ok _ => (.ok res, t4)

/-- The caller-supplied accessCondition override: none models options
without an accessCondition key; some v models a present key (v = none
being an explicit undefined, as updateWithOverwrite passes). -/
def AcOverride : Type := Option (Option AccessCondition)

/-- The access condition BaseModel.update attaches to its upsert: the
computed If-Match condition from a present _etag, overridden by an
accessCondition key spread in from the caller's options. -/
def updateAccessCondition (props : MProps) (o : AcOverride) : Option AccessCondition :=
  match o with
  | some v => v
  | none =>
    match props.etag with
    | some t => some ⟨"IfMatch", t⟩
    | none => none

/-- BaseModel.update: run beforeUpdate then beforePersist, upsert the
props under the computed access condition, adopt the returned resource,
then run afterPersist and afterCreate (the source really invokes
afterCreate here, not afterUpdate). -/
def BaseModel.update (hooks : Hooks) (st : StoreOps) (props : MProps) (o : AcOverride) :
    Except Nat MProps × List Event :=
  let t0 := [Event.hookEv .beforeUpdate]
  match hooks .beforeUpdate with
  | .error e => (.error e, t0)
  | .ok _ =>
    let t1 := t0 ++ [Event.hookEv .beforePersist]
    match hooks .beforePersist with
    | .error e => (.error e, t1)
    | .ok _ =>
      let doc := wireFields props.fields
      let cond := updateAccessCondition props o
      let t2 := t1 ++ [Event.netUpsert doc cond]
      match st.upsertItem doc cond with
      | .error e => (.error e, t2)
      | .ok res =>
        let t3 := t2 ++ [Event.hookEv .afterPersist]
        match hooks .afterPersist with
        | .error e => (.error e, t3)
        | .ok _ =>
          let t4 := t3 ++ [Event.hookEv .afterCreate]
          match hooks .afterCreate with
          | .error e => (.error e, t4)
          | .ok _ => (.ok res, t4)

/-- BaseModel.updateWithOverwrite: update with the accessCondition key
explicitly spread to undefined, so no etag check is done. -/
def BaseModel.updateWithOverwrite (hooks : Hooks) (st : StoreOps) (props : MProps) :
    Except Nat MProps × List Event :=
  BaseModel.update hooks st props (some none)

/-- JavaScript truthiness of the _etag property: present and not the
empty string. -/
def etagTruthy (etag : Option String) : Bool :=
  match etag with
  | some s => !(s == "")
  | none => false

/-- BaseModel.save: dispatch on the truthiness of props._etag, updating
when it is truthy and creating otherwise. -/
def BaseModel.save (hooks : Hooks) (st : StoreOps) (props : MProps) (o : AcOverride) :
    Except Nat MProps × List Event :=
  if etagTruthy props.etag then BaseModel.update hooks st props o
  else BaseModel.create hooks st props

/-- BaseModel.partitionKey: when the schema definition's partition key
is not a string, return the empty string without looking at the props;
when it is a string path, look it up in the props and fail with the
undefined-partition-key error exactly when the lookup is undefined. -/
def BaseModel.partitionKey (schema : Schema) (props : JsValue) : Except String JsValue :=
  match schema.definition.partitionKey with
  | some (.path p) =>
    let value := lookupCosmosPath props p
    if value.isUndefined then
      .error ("Partition key was undefined at path " ++ p ++
        " in the model." ++ "A partition key must always be present.")
    else .ok value
  | _ => .ok (.str "")

/-- Outcome of a createOrUpdate run: aborted (the transition function
returned no value, a normal return), saved (the persisted model), or
threw (an error with its status code was re-raised to the caller). -/
inductive COURes (M : Type) where
  | aborted
  | saved (m : M)
  | threw (code : Nat)
deriving DecidableEq

/-- A createOrUpdate outcome together with the number of save (write)
calls the run performed. -/
structure COUOut (M : Type) where
  res : COURes M
  saves : Nat
deriving DecidableEq

/-- Increment the save-call count of an outcome (the current attempt
performed one save before continuing). -/
def addSave {M : Type} (o : COUOut M) : COUOut M :=
  ⟨o.res, o.saves + 1⟩

/-- Oracle for one createOrUpdate run over models of type M: per
attempt number, the outcome of the partition read by id (error = the
code the read throws, 404 meaning the document is missing), the value
the transition function returns (none = the falsy no-value return that
aborts), and the outcome of the save call on the updated model. -/
structure AtomicEnv (M : Type) where
  read : Nat → Except Nat M
  fn : Nat → Option M → Option M
  save : Nat → M → Except Nat M

/-- Options of the atomic coordinator (IAtomicOptions): a cached
initial value, the retry budget defaulting to 3, and mustFind. -/
structure AtomicOptions (M : Type) where
  initialValue : Option M := none
  retries : Nat := 3
  mustFind : Bool := false

/-- The prior-state phase of one attempt: use the cached value if
present; otherwise read by id — find when mustFind (any thrown code
propagates), else maybeFind (a 404 yields the absent prior state and
every other code propagates). -/
def couPrior {M : Type} (env : AtomicEnv M) (mustFind : Bool) (cache : Option M)
    (i : Nat) : Except Nat (Option M) :=
  match cache with
  | some m => .ok (some m)
  | none =>
    if mustFind then
      match env.read i with
      | .ok m => .ok (some m)
      | .error c => .error c
    else
      match env.read i with
      | .ok m => .ok (some m)
      | .error c => if c = 404 then .ok none else .error c

/-- The loop of createOrUpdate.  Each attempt i computes the prior
state, applies the transition function (a falsy return aborts), and
tries to save; a 412 or 409 save error with budget left clears the
cache and retries at attempt i+1.  fuel bounds the recursion: the loop
can only continue while i < retries, so any fuel of at least
retries - i makes the fuel-exhausted branch unreachable. -/
def couGo {M : Type} (env : AtomicEnv M) (retries : Nat) (mustFind : Bool) :
    Option M → Nat → Nat → COUOut M
  | cache, i, fuel =>
    match couPrior env mustFind cache i with
    | .error c => ⟨.threw c, 0⟩
    | .ok prior =>
      match env.fn i prior with
      | none => ⟨.aborted, 0⟩
      | some updated =>
        match env.save i updated with
        | .ok saved => ⟨.saved saved, 1⟩
        | .error c =>
          if (c = 412 ∨ c = 409) ∧ i < retries then
            match fuel with
            | 0 => ⟨.threw c, 1⟩
            | fuel1 + 1 => addSave (couGo env retries mustFind none (i + 1) fuel1)
          else ⟨.threw c, 1⟩

/-- The body of one attempt after the prior state has been computed:
what couGo does with a prior state p at attempt i.  Stated separately
so theorems can say that the transition function is invoked on p. -/
def couAfterPrior {M : Type} (env : AtomicEnv M) (retries : Nat) (mustFind : Bool)
    (p : Option M) (i fuel : Nat) : COUOut M :=
  match env.fn i p with
  | none => ⟨.aborted, 0⟩
  | some updated =>
    match env.save i updated with
    | .ok saved => ⟨.saved saved, 1⟩
    | .error c =>
      if (c = 412 ∨ c = 409) ∧ i < retries then
        match fuel with
        | 0 => ⟨.threw c, 1⟩
        | fuel1 + 1 => addSave (couGo env retries mustFind none (i + 1) fuel1)
      else ⟨.threw c, 1⟩

/-- createOrUpdate from src/atomic.ts: run the loop from attempt 0 with
the cached initial value; the fuel retries is exact, since the loop
performs at most retries + 1 attempts. -/
def createOrUpdate {M : Type} (env : AtomicEnv M) (opts : AtomicOptions M) : COUOut M :=
  couGo env opts.retries opts.mustFind opts.initialValue 0 opts.retries

lemma couGo_ok {M : Type} {env : AtomicEnv M} {retries : Nat} {mustFind : Bool}
    {cache p : Option M} {i : Nat} (fuel : Nat)
    (hp : couPrior env mustFind cache i = .ok p) :
    couGo env retries mustFind cache i fuel = couAfterPrior env retries mustFind p i fuel := by
  rw [couGo.eq_def]
  simp only [hp, couAfterPrior]

lemma couGo_err {M : Type} {env : AtomicEnv M} {retries : Nat} {mustFind : Bool}
    {cache : Option M} {i c : Nat} (fuel : Nat)
    (hp : couPrior env mustFind cache i = .error c) :
    couGo env retries mustFind cache i fuel = ⟨.threw c, 0⟩ := by
  rw [couGo.eq_def]
  simp only [hp]

lemma couGo_saves_le {M : Type} (env : AtomicEnv M) (retries : Nat) (mustFind : Bool) :
    ∀ fuel cache i, (couGo env retries mustFind cache i fuel).saves ≤ fuel + 1 := by
  intro fuel
  induction fuel with
  | zero =>
    intro cache i
    cases hp : couPrior env mustFind cache i with
    | error c => rw [couGo_err 0 hp]; exact Nat.zero_le _
    | ok p =>
      rw [couGo_ok 0 hp]
      unfold couAfterPrior
      cases hf : env.fn i p with
      | none => simp
      | some updated =>
        simp only []
        cases hs : env.save i updated with
        | ok saved => simp
        | error c =>
          simp only []
          by_cases hcond : (c = 412 ∨ c = 409) ∧ i < retries
          · rw [if_pos hcond]
          · rw [if_neg hcond]
  | succ f ih =>
    intro cache i
    cases hp : couPrior env mustFind cache i with
    | error c => rw [couGo_err (f + 1) hp]; exact Nat.zero_le _
    | ok p =>
      rw [couGo_ok (f + 1) hp]
      unfold couAfterPrior
      cases hf : env.fn i p with
      | none => simp
      | some updated =>
        simp only []
        cases hs : env.save i updated with
        | ok saved => simp
        | error c =>
          simp only []
          by_cases hcond : (c = 412 ∨ c = 409) ∧ i < retries
          · rw [if_pos hcond]
            simp only [addSave]
            exact Nat.succ_le_succ (ih none (i + 1))
          · rw [if_neg hcond]; simp

/-- One insertion into a JavaScript Set of strings: a new element goes
to the end, an already-present element leaves the set unchanged. -/
def jsAdd (st : List String) (s : String) : List String :=
  if s ∈ st then st else st ++ [s]

/-- new Set(elems) for a string array: insert the elements in order,
keeping first occurrences (the Set's insertion-ordered element list,
which is also what Array.from returns). -/
def jsSetOfList (elems : List String) : List String :=
  elems.foldl jsAdd []

/-- View a JSON array's elements as strings, if they all are. -/
def asStringList : List JsValue → Option (List String)
  | [] => some []
  | .str s :: rest => (asStringList rest).map (fun l => s :: l)
  | _ => none

/-- The favoriteColors deserializer of the test schema: stored value to
runtime value, stored => new Set(stored).  Only string arrays occur for
this field; other inputs are left untouched. -/
def favDeserialize (v : JsValue) : RValue :=
  match v with
  | .arr xs =>
    match asStringList xs with
    | some ss => .set (jsSetOfList ss)
    | none => .js v
  | _ => .js v

/-- The favoriteColors serializer of the test schema: runtime value to
stored value, app => Array.from(app). -/
def favSerialize (r : RValue) : JsValue :=
  match r with
  | .set ss => .arr (ss.map JsValue.str)
  | .js v => v

/-- The favoriteColors Transform of the test schema (testUtils). -/
def favTransform : Transform :=
  ⟨favDeserialize, favSerialize⟩

/-- The favoriteColors validation fragment of the test schema: type
array, maxItems 3, items of type string. -/
def favFragment : JsValue :=
  .obj [("type", .str "array"), ("maxItems", .num 3),
        ("items", .obj [("type", .str "string")])]

/-- Admittance of the favoriteColors validation fragment: a JSON value
satisfies the fragment type array, maxItems 3, items type string
exactly when it is an array of at most three strings. -/
def favFragmentAdmits (v : JsValue) : Bool :=
  match v with
  | .arr xs =>
    decide (xs.length ≤ 3) &&
      xs.all fun e => match e with | .str _ => true | _ => false
  | _ => false

/-- The users schema of testUtils: partition key /id, username typed
string, favoriteColors a Set of strings with the array transform and
the validation fragment, favoriteCities optional. -/
def userSchema : Schema :=
  ((((createSchema "users").partitionKey "/id" false).field
        "username" (some false) {}).field
      "favoriteColors" (some false)
      { transform := some favTransform, fragment := favFragment }).field
    "favoriteCities" (some true) {}

/-- The props of exampleUser from testUtils: id 1, favoriteColors the
Set containing blue, username Connor; never persisted, so no etag. -/
def exampleUserProps : MProps :=
  ⟨[("id", .js (.str "1")), ("favoriteColors", .set ["blue"]),
    ("username", .js (.str "Connor"))], none⟩

lemma asStringList_map_str (l : List String) : asStringList (l.map JsValue.str) = some l := by
  induction l with
  | nil => rfl
  | cons a rest ih => simp [asStringList, ih]

lemma foldl_jsAdd_of_disjoint (l : List String) :
    ∀ acc : List String, l.Nodup → (∀ a ∈ l, a ∉ acc) →
      l.foldl jsAdd acc = acc ++ l := by
  induction l with
  | nil => intro acc _ _; simp
  | cons a rest ih =>
    intro acc hnd hdis
    have hna : a ∉ acc := hdis a (List.mem_cons_self a rest)
    have hstep : jsAdd acc a = acc ++ [a] := by simp [jsAdd, hna]
    have hrest : ∀ b ∈ rest, b ∉ acc ++ [a] := by
      intro b hb
      simp only [List.mem_append, List.mem_singleton]
      rintro (hacc | rfl)
      · exact hdis b (List.mem_cons_of_mem a hb) hacc
      · exact (List.nodup_cons.mp hnd).1 hb
    calc (a :: rest).foldl jsAdd acc = rest.foldl jsAdd (jsAdd acc a) := rfl
      _ = rest.foldl jsAdd (acc ++ [a]) := by rw [hstep]
      _ = (acc ++ [a]) ++ rest := ih (acc ++ [a]) (List.nodup_cons.mp hnd).2 hrest
      _ = acc ++ a :: rest := by simp

lemma jsSetOfList_of_nodup (l : List String) (h : l.Nodup) : jsSetOfList l = l := by
  simpa [jsSetOfList] using foldl_jsAdd_of_disjoint l [] h (by simp)

lemma assocLookup_assocSet_self {β : Type} (n : String) (v : β) :
    ∀ m : List (String × β), assocLookup (assocSet m n v) n = some v := by
  intro m
  induction m with
  | nil => simp [assocSet, assocLookup]
  | cons hd rest ih =>
    obtain ⟨k, w⟩ := hd
    by_cases hk : k = n
    · simp [assocSet, assocLookup, hk]
    · simp [assocSet, assocLookup, hk, ih]

lemma assocLookup_assocSet_other {β : Type} (n k : String) (v : β) (hk : k ≠ n) :
    ∀ m : List (String × β), assocLookup (assocSet m n v) k = assocLookup m k := by
  intro m
  have hnk : ¬(n = k) := fun h => hk h.symm
  induction m with
  | nil => simp [assocSet, assocLookup, hnk]
  | cons hd rest ih =>
    obtain ⟨k1, w⟩ := hd
    by_cases h1 : k1 = n
    · have h1k : ¬(k1 = k) := by rw [h1]; exact hnk
      simp [assocSet, assocLookup, h1, hnk, h1k]
    · by_cases h2 : k1 = k
      · simp [assocSet, assocLookup, h1, h2, hk]
      · simp [assocSet, assocLookup, h1, h2, ih]

/-- C8: every Schema configuration method (field, partitionKey, ttl,
enableTtlWithoutDefault, addToIndex, removeFromIndex,
removeAllFromIndex, unique, setConflictResolution,
setGeospatialConfig, setThroughput) returns a new Schema in which
exactly the configured aspect is updated: the schema map is unchanged
(respectively, for field, only the named entry is written), and the
container definition is the old one with only the configured component
replaced; the original Schema value is never mutated (the embedding is
pure, so the input s is untouched by construction). -/
theorem schema_builder_functional_update :
    (∀ (s : Schema) (n : String) (t : Option Bool) (cfg : FieldInput),
        (s.field n t cfg).definition = s.definition
        ∧ assocLookup (s.field n t cfg).schemaMap n
            = some ⟨(cfg.isRequired == some true) || (t == some false),
                    cfg.fragment, cfg.transform⟩
        ∧ ∀ k, k ≠ n →
            assocLookup (s.field n t cfg).schemaMap k = assocLookup s.schemaMap k)
    ∧ (∀ (s : Schema) (d : Option Int),
        (s.ttl d).schemaMap = s.schemaMap
        ∧ (s.ttl d).definition = { s.definition with defaultTtl := d })
    ∧ (∀ s : Schema, s.enableTtlWithoutDefault = s.ttl (some (-1)))
    ∧ (∀ (s : Schema) (paths : List String),
        (s.removeFromIndex paths).schemaMap = s.schemaMap
        ∧ (s.removeFromIndex paths).definition
            = { s.definition with
                  indexingPolicy := some
                    { includedPaths :=
                        s.definition.indexingPolicy.bind IndexingPolicy.includedPaths
                      excludedPaths := some (concatOpt
                        (s.definition.indexingPolicy.bind IndexingPolicy.excludedPaths)
                        (paths.map ExcludedPath.mk)) } })
    ∧ (∀ s : Schema, s.removeAllFromIndex = s.removeFromIndex ["/*"])
    ∧ (∀ (s : Schema) (path : String) (idxs : List CosmosIndex),
        (s.addToIndex path idxs).schemaMap = s.schemaMap
        ∧ (s.addToIndex path idxs).definition
            = { s.definition with
                  indexingPolicy := some
                    { includedPaths := some (concatOpt
                        (s.definition.indexingPolicy.bind IndexingPolicy.includedPaths)
                        [⟨path, idxs⟩])
                      excludedPaths :=
                        s.definition.indexingPolicy.bind IndexingPolicy.excludedPaths } })
    ∧ (∀ (s : Schema) (paths : List String),
        (s.unique paths).schemaMap = s.schemaMap
        ∧ (s.unique paths).definition
            = { s.definition with
                  uniqueKeyPolicy := some
                    ⟨concatOpt (s.definition.uniqueKeyPolicy.map UniqueKeyPolicy.uniqueKeys)
                       [⟨paths⟩]⟩ })
    ∧ (∀ (s : Schema) (path : String) (long : Bool),
        (s.partitionKey path long).schemaMap = s.schemaMap
        ∧ (s.partitionKey path long).definition
            = { s.definition with
                  partitionKey := some (.keyDef [path] (if long then 2 else 1)) })
    ∧ (∀ (s : Schema) (pol : ConflictResolutionPolicy),
        (s.setConflictResolution pol).schemaMap = s.schemaMap
        ∧ (s.setConflictResolution pol).definition
            = { s.definition with conflictResolutionPolicy := some pol })
    ∧ (∀ (s : Schema) (t : String),
        (s.setGeospatialConfig t).schemaMap = s.schemaMap
        ∧ (s.setGeospatialConfig t).definition
            = { s.definition with geospatialConfig := some ⟨t⟩ })
    ∧ (∀ (s : Schema) (n : Nat),
        (s.setThroughput (.ru n)).schemaMap = s.schemaMap
        ∧ (s.setThroughput (.ru n)).definition
            = { s.definition with throughput := some n })
    ∧ (∀ (s : Schema) (th mx : Option Nat) (up : Option String),
        (s.setThroughput (.config th mx up)).schemaMap = s.schemaMap
        ∧ (s.setThroughput (.config th mx up)).definition
            = { s.definition with
                  throughput := match th with
                    | some v => some v
                    | none => s.definition.throughput
                  maxThroughput := match mx with
                    | some v => some v
                    | none => s.definition.maxThroughput
                  autoUpgradePolicy := match up with
                    | some v => some v
                    | none => s.definition.autoUpgradePolicy }) := by
  refine ⟨?_, ?_, ?_, ?_, ?_, ?_, ?_, ?_, ?_, ?_, ?_, ?_⟩
  · intro s n t cfg
    exact ⟨rfl, assocLookup_assocSet_self n _ s.schemaMap,
           fun k hk => assocLookup_assocSet_other n k _ hk s.schemaMap⟩
  · exact fun s d => ⟨rfl, rfl⟩
  · exact fun s => rfl
  · exact fun s paths => ⟨rfl, rfl⟩
  · exact fun s => rfl
  · exact fun s path idxs => ⟨rfl, rfl⟩
  · exact fun s paths => ⟨rfl, rfl⟩
  · exact fun s path long => ⟨rfl, rfl⟩
  · exact fun s pol => ⟨rfl, rfl⟩
  · exact fun s t => ⟨rfl, rfl⟩
  · exact fun s n => ⟨rfl, rfl⟩
  · exact fun s th mx up => ⟨rfl, rfl⟩

/-- Witness for the builder theorem: on the concrete users schema,
adding the username field leaves the definition untouched and the id
entry unchanged, discharging the frame hypothesis id not equal to
username at a concrete input. -/
theorem schema_builder_functional_update_witness :
    ("id" ≠ "username"
      ∧ ((createSchema "users").field "username" (some false) {}).definition
          = (createSchema "users").definition)
    ∧ assocLookup ((createSchema "users").field "username" (some false) {}).schemaMap "id"
        = assocLookup (createSchema "users").schemaMap "id" :=
  ⟨⟨by decide,
    (schema_builder_functional_update.1 (createSchema "users") "username" (some false) {}).1⟩,
   (schema_builder_functional_update.1 (createSchema "users") "username" (some false) {}).2.2
     "id" (by decide)⟩

lemma isUndefined_iff (v : JsValue) : v.isUndefined = true ↔ v = .undefined := by
  cases v <;> simp [JsValue.isUndefined]

/-- C10: on a schema configured through the fluent builder, whose
partitionKey method stores the object form paths-plus-version, the
instance accessor returns the empty string for every props value (it
never inspects the props); and in general the accessor fails with the
undefined-partition-key error exactly when the stored partition key is
a string path whose lookup in the props is undefined. -/
theorem partitionKey_accessor_builder_empty :
    (∀ (s : Schema) (path : String) (long : Bool) (props : JsValue),
        BaseModel.partitionKey (s.partitionKey path long) props = .ok (.str ""))
    ∧ (∀ (s : Schema) (props : JsValue),
        (∃ e, BaseModel.partitionKey s props = .error e)
          ↔ ∃ p, s.definition.partitionKey = some (.path p)
                 ∧ lookupCosmosPath props p = .undefined) := by
  constructor
  · intro s path long props
    rfl
  · intro s props
    cases hpk : s.definition.partitionKey with
    | none => simp [BaseModel.partitionKey, hpk]
    | some setting =>
      cases setting with
      | keyDef ps ver => simp [BaseModel.partitionKey, hpk]
      | path p =>
        by_cases hu : (lookupCosmosPath props p).isUndefined = true
        · constructor
          · intro _
            exact ⟨p, rfl, (isUndefined_iff _).mp hu⟩
          · intro _
            refine ⟨"Partition key was undefined at path " ++ p ++
              " in the model." ++ "A partition key must always be present.", ?_⟩
            simp [BaseModel.partitionKey, hpk, hu]
        · constructor
          · rintro ⟨e, he⟩
            rw [BaseModel.partitionKey, hpk] at he
            simp only [Bool.not_eq_true] at hu
            simp [hu] at he
          · rintro ⟨q, hq, hlook⟩
            injection hq with hq
            injection hq with hq
            subst hq
            exact absurd ((isUndefined_iff _).mpr hlook) hu

/-- Length of a JSON array (0 for non-arrays); used to discriminate
concrete unequal JSON values. -/
def jsArrLen : JsValue → Nat
  | .arr xs => xs.length
  | _ => 0

/-- C9 counterexample: the stored array with a duplicate, blue twice,
is admitted by the favoriteColors validation fragment (an array of at
most three strings), but serialize (deserialize x) collapses it to a
single blue, so the round-trip law fails on a legally stored value. -/
theorem favoriteColors_roundtrip_counterexample :
    favFragmentAdmits (.arr [.str "blue", .str "blue"]) = true
    ∧ favTransform.serialize (favTransform.deserialize (.arr [.str "blue", .str "blue"]))
        ≠ .arr [.str "blue", .str "blue"] := by
  refine ⟨rfl, ?_⟩
  intro h
  exact absurd (congrArg jsArrLen h) (by decide)

/-- C9 amended: for the favoriteColors Set codec, serialize after
deserialize is the identity on every stored string array that the
validation fragment admits and that contains no duplicate elements
(the codec deduplicates, keeping first occurrences, so duplicates are
the only admitted values it does not round-trip). -/
theorem favoriteColors_roundtrip_nodup (l : List String)
    (hadm : favFragmentAdmits (.arr (l.map JsValue.str)) = true)
    (hnd : l.Nodup) :
    favTransform.serialize (favTransform.deserialize (.arr (l.map JsValue.str)))
      = .arr (l.map JsValue.str) := by
  have h1 : favTransform.deserialize (.arr (l.map JsValue.str)) = .set l := by
    simp [favTransform, favDeserialize, asStringList_map_str, jsSetOfList_of_nodup l hnd]
  rw [h1]
  rfl

/-- Witness for the amended round-trip law at the concrete admitted
duplicate-free array red, blue. -/
theorem favoriteColors_roundtrip_nodup_witness :
    favFragmentAdmits (.arr (["red", "blue"].map JsValue.str)) = true
    ∧ (["red", "blue"] : List String).Nodup
    ∧ favTransform.serialize
        (favTransform.deserialize (.arr (["red", "blue"].map JsValue.str)))
        = .arr (["red", "blue"].map JsValue.str) :=
  ⟨by decide, by decide,
   favoriteColors_roundtrip_nodup ["red", "blue"] (by decide) (by decide)⟩

/-- A stored resource as returned by a successful store call (the
response resource the model adopts). -/
def resProps : MProps :=
  ⟨[("id", .js (.str "1")), ("username", .js (.str "Connor"))], some "etag-2"⟩

/-- A store in which both write calls succeed and return resProps. -/
def stOk : StoreOps :=
  ⟨fun _ => .ok resProps, fun _ _ => .ok resProps⟩

/-- A store in which the insert fails with 409 (id already exists) and
the upsert fails with 412 (precondition failed). -/
def st412 : StoreOps :=
  ⟨fun _ => .error 409, fun _ _ => .error 412⟩

/-- A freshly constructed, never persisted entity: no etag. -/
def pFresh : MProps :=
  ⟨[("id", .js (.str "1")), ("username", .js (.str "Connor"))], none⟩

/-- An entity read back from the store: etag present. -/
def pPersisted : MProps :=
  ⟨[("id", .js (.str "1")), ("username", .js (.str "Connor"))], some "etag-1"⟩

/-- An entity whose etag property holds the empty string: a present but
falsy concurrency token. -/
def pEmptyEtag : MProps :=
  ⟨[("id", .js (.str "1")), ("username", .js (.str "Connor"))], some ""⟩

/-- Number of upsert calls recorded in a trace. -/
def countUpserts (trace : List Event) : Nat :=
  (trace.filter fun e => match e with | .netUpsert _ _ => true | _ => false).length

/-- C3: with default no-op hooks and a successful store call, create
runs exactly beforeCreate, beforePersist, afterPersist, afterCreate in
that order, as the claim states; but update runs beforeUpdate,
beforePersist, afterPersist and then afterCreate, not afterUpdate: the
final hook of update() contradicts the claim (and the hook
documentation in the source itself). -/
theorem update_final_hook_is_afterCreate :
    hookSeq (BaseModel.create defHooks stOk pFresh).2
        = [.beforeCreate, .beforePersist, .afterPersist, .afterCreate]
    ∧ hookSeq (BaseModel.update defHooks stOk pPersisted none).2
        = [.beforeUpdate, .beforePersist, .afterPersist, .afterCreate] :=
  ⟨rfl, rfl⟩

/-- C4 counterexample: the entity pEmptyEtag holds a concurrency token
(props etag is present, the empty string), yet save dispatches to
create, not to update, because the source tests the token with
JavaScript truthiness rather than presence. -/
theorem save_empty_etag_counterexample :
    pEmptyEtag.etag = some ""
    ∧ BaseModel.save defHooks stOk pEmptyEtag none = BaseModel.create defHooks stOk pEmptyEtag
    ∧ BaseModel.save defHooks stOk pEmptyEtag none ≠ BaseModel.update defHooks stOk pEmptyEtag none := by
  refine ⟨rfl, rfl, ?_⟩
  intro h
  exact absurd (congrArg (fun r => countUpserts r.2) h) (by decide)

/-- C4 amended: save dispatches to update exactly when a non-empty
concurrency token is held; an absent or empty-string etag dispatches to
create.  In each case exactly one of the two operations runs and its
result is returned. -/
theorem save_dispatch (h : Hooks) (st : StoreOps) (props : MProps) (o : AcOverride) :
    (props.etag = none → BaseModel.save h st props o = BaseModel.create h st props)
    ∧ (props.etag = some "" → BaseModel.save h st props o = BaseModel.create h st props)
    ∧ (∀ s, props.etag = some s → s ≠ "" →
        BaseModel.save h st props o = BaseModel.update h st props o) := by
  refine ⟨?_, ?_, ?_⟩
  · intro he
    simp [BaseModel.save, etagTruthy, he]
  · intro he
    simp [BaseModel.save, etagTruthy, he]
  · intro s he hs
    simp [BaseModel.save, etagTruthy, he, hs]

/-- Witness for the save dispatch theorem: a persisted entity with the
non-empty token etag-1 dispatches to update. -/
theorem save_dispatch_witness :
    pPersisted.etag = some "etag-1"
    ∧ ("etag-1" : String) ≠ ""
    ∧ BaseModel.save defHooks stOk pPersisted none
        = BaseModel.update defHooks stOk pPersisted none :=
  ⟨rfl, by decide,
   (save_dispatch defHooks stOk pPersisted none).2.2 "etag-1" rfl (by decide)⟩

/-- C5: the upsert sent by update carries the held etag as an IfMatch
access condition when the caller passes no accessCondition override;
with no token held, or with the override that updateWithOverwrite
spreads in, the write is unconditional; the request event in the trace
carries exactly this condition; and a store precondition failure (412)
propagates to the caller unchanged, a code distinct from not-found
(404). -/
theorem update_if_match_precondition (props : MProps) (t : String) (st : StoreOps)
    (o : AcOverride) :
    (props.etag = some t → updateAccessCondition props none = some ⟨"IfMatch", t⟩)
    ∧ (props.etag = none → updateAccessCondition props none = none)
    ∧ (∀ (h2 : Hooks) (p2 : MProps),
        BaseModel.updateWithOverwrite h2 st p2 = BaseModel.update h2 st p2 (some none)
        ∧ updateAccessCondition p2 (some none) = none)
    ∧ Event.netUpsert (wireFields props.fields) (updateAccessCondition props o)
        ∈ (BaseModel.update defHooks st props o).2
    ∧ (st.upsertItem (wireFields props.fields) (updateAccessCondition props o) = .error 412 →
        (BaseModel.update defHooks st props o).1 = .error 412 ∧ (412 : Nat) ≠ 404) := by
  refine ⟨?_, ?_, ?_, ?_, ?_⟩
  · intro he
    simp [updateAccessCondition, he]
  · intro he
    simp [updateAccessCondition, he]
  · intro h2 p2
    exact ⟨rfl, rfl⟩
  · cases hs : st.upsertItem (wireFields props.fields) (updateAccessCondition props o) with
    | ok res => simp [BaseModel.update, defHooks, hs]
    | error e => simp [BaseModel.update, defHooks, hs]
  · intro hs
    refine ⟨?_, by decide⟩
    simp [BaseModel.update, defHooks, hs]

/-- Witness for the update precondition theorem: a persisted entity
with token etag-1 sends IfMatch etag-1, and a store that reports 412
makes update raise 412 to the caller. -/
theorem update_if_match_precondition_witness :
    pPersisted.etag = some "etag-1"
    ∧ updateAccessCondition pPersisted none = some ⟨"IfMatch", "etag-1"⟩
    ∧ st412.upsertItem (wireFields pPersisted.fields) (updateAccessCondition pPersisted none)
        = .error 412
    ∧ (BaseModel.update defHooks st412 pPersisted none).1 = .error 412 :=
  ⟨rfl, (update_if_match_precondition pPersisted "etag-1" st412 none).1 rfl, rfl,
   ((update_if_match_precondition pPersisted "etag-1" st412 none).2.2.2.2 rfl).1⟩

/-- C7: create transmits the props untransformed.  On exampleUser the
document put on the wire by create (recorded in its trace) carries the
runtime Set for favoriteColors, which JSON-serializes to an empty
object, whereas transformToDatabase serializes it to the stored string
array: the wire document differs from transformToDatabase of the
props, so serialize is not applied on the write path (the read path
does apply transformFromDatabase in findWithDetails). -/
theorem create_sends_untransformed_props :
    (BaseModel.create defHooks stOk exampleUserProps).2
        = [.hookEv .beforeCreate, .hookEv .beforePersist,
           .netCreate (wireFields exampleUserProps.fields),
           .hookEv .afterPersist, .hookEv .afterCreate]
    ∧ assocLookup (wireFields exampleUserProps.fields) "favoriteColors" = some (.obj [])
    ∧ assocLookup (transformToDatabase userSchema exampleUserProps.fields) "favoriteColors"
        = some (.arr [.str "blue"])
    ∧ wireFields exampleUserProps.fields
        ≠ transformToDatabase userSchema exampleUserProps.fields := by
  refine ⟨rfl, rfl, rfl, ?_⟩
  intro h
  exact absurd
    (congrArg (fun d => jsArrLen ((assocLookup d "favoriteColors").getD .undefined)) h)
    (by decide)

/-- C1: when an attempt of createOrUpdate reaches its save call (the
computed prior state was ok, the transition function returned a model)
and the save throws code c, then: a conflict code (412 or 409) below
the retry budget makes the loop clear the cached prior state and
continue at attempt i+1 (one more save counted) with no cache, so the
next attempt re-reads by id; a conflict at an exhausted budget
re-raises c; any non-conflict code is re-raised immediately at any
attempt; a whole run performs at most retries + 1 save calls; and the
retry budget defaults to 3. -/
theorem createOrUpdate_conflict_retry {M : Type} (env : AtomicEnv M) (retries : Nat)
    (mustFind : Bool) (cache : Option M) (i fuel : Nat) (p : Option M) (m : M) (c : Nat)
    (hp : couPrior env mustFind cache i = .ok p)
    (hf : env.fn i p = some m)
    (hs : env.save i m = .error c) :
    ((c = 412 ∨ c = 409) → i < retries →
        couGo env retries mustFind cache i (fuel + 1)
          = addSave (couGo env retries mustFind none (i + 1) fuel))
    ∧ ((c = 412 ∨ c = 409) → ¬ i < retries →
        couGo env retries mustFind cache i fuel = ⟨.threw c, 1⟩)
    ∧ (¬(c = 412 ∨ c = 409) →
        couGo env retries mustFind cache i fuel = ⟨.threw c, 1⟩)
    ∧ (∀ opts : AtomicOptions M, (createOrUpdate env opts).saves ≤ opts.retries + 1)
    ∧ ({} : AtomicOptions M).retries = 3 := by
  refine ⟨?_, ?_, ?_, ?_, rfl⟩
  · intro hc hi
    rw [couGo_ok (fuel + 1) hp]
    unfold couAfterPrior
    simp only [hf, hs]
    rw [if_pos ⟨hc, hi⟩]
  · intro hc hi
    rw [couGo_ok fuel hp]
    unfold couAfterPrior
    simp only [hf, hs]
    rw [if_neg (fun hand => hi hand.2)]
  · intro hc
    rw [couGo_ok fuel hp]
    unfold couAfterPrior
    simp only [hf, hs]
    rw [if_neg (fun hand => hc hand.1)]
  · intro opts
    exact couGo_saves_le env opts.retries opts.mustFind opts.retries opts.initialValue 0

/-- A run over Nat models whose first save conflicts with 412 and whose
later saves succeed. -/
def envConflict : AtomicEnv Nat :=
  ⟨fun _ => .ok 1, fun _ _ => some 5, fun i m => if i = 0 then .error 412 else .ok m⟩

/-- Witness for the conflict-retry theorem: at attempt 0 of envConflict
(cached prior 1, transition gives 5, save throws 412, budget 3), the
run equals one counted save followed by the cache-cleared continuation
at attempt 1. -/
theorem createOrUpdate_conflict_retry_witness :
    couPrior envConflict false (some 1) 0 = .ok (some 1)
    ∧ envConflict.fn 0 (some 1) = some 5
    ∧ envConflict.save 0 5 = .error 412
    ∧ couGo envConflict 3 false (some 1) 0 3
        = addSave (couGo envConflict 3 false none 1 2) :=
  ⟨rfl, rfl, rfl,
   (createOrUpdate_conflict_retry envConflict 3 false (some 1) 0 2 (some 1) 5 412
      rfl rfl rfl).1 (Or.inl rfl) (by decide)⟩

/-- C2: when the transition function returns the no-value abort result
on the first attempt (after a successfully computed prior state),
createOrUpdate returns the aborted outcome, a normal return distinct
from a thrown error, and performs zero save calls. -/
theorem createOrUpdate_abort_short_circuit {M : Type} (env : AtomicEnv M)
    (opts : AtomicOptions M) (p : Option M)
    (hp : couPrior env opts.mustFind opts.initialValue 0 = .ok p)
    (hf : env.fn 0 p = none) :
    createOrUpdate env opts = ⟨.aborted, 0⟩ := by
  unfold createOrUpdate
  rw [couGo_ok opts.retries hp]
  unfold couAfterPrior
  simp only [hf]

/-- A run over Nat models whose transition function always aborts. -/
def envAbort : AtomicEnv Nat :=
  ⟨fun _ => .ok 1, fun _ _ => none, fun _ m => .ok m⟩

/-- Witness for the abort short-circuit at a concrete run with default
options: the prior state reads fine, the transition aborts, and the
outcome is aborted with zero saves. -/
theorem createOrUpdate_abort_short_circuit_witness :
    couPrior envAbort ({} : AtomicOptions Nat).mustFind
        ({} : AtomicOptions Nat).initialValue 0 = .ok (some 1)
    ∧ envAbort.fn 0 (some 1) = none
    ∧ createOrUpdate envAbort {} = ⟨.aborted, 0⟩ :=
  ⟨rfl, rfl, createOrUpdate_abort_short_circuit envAbort {} (some 1) rfl rfl⟩

/-- C6: with no initial value supplied, createOrUpdate reads the
document by id: under mustFind any read failure (in particular the
404 of a missing document) is re-raised with zero saves; without
mustFind a 404 read yields the absent prior state, no error, and the
run continues as the attempt body applied to the absent prior (the
transition function is invoked on it); a non-404 read failure is
re-raised in that mode too; and a found document continues as the
attempt body applied to it. -/
theorem createOrUpdate_read_phase {M : Type} (env : AtomicEnv M) (retries c : Nat) :
    (env.read 0 = .error c →
        createOrUpdate env ⟨none, retries, true⟩ = ⟨.threw c, 0⟩)
    ∧ (env.read 0 = .error 404 →
        createOrUpdate env ⟨none, retries, false⟩
          = couAfterPrior env retries false none 0 retries)
    ∧ (env.read 0 = .error c → c ≠ 404 →
        createOrUpdate env ⟨none, retries, false⟩ = ⟨.threw c, 0⟩)
    ∧ (∀ m : M, env.read 0 = .ok m →
        createOrUpdate env ⟨none, retries, false⟩
          = couAfterPrior env retries false (some m) 0 retries) := by
  refine ⟨?_, ?_, ?_, ?_⟩
  · intro hr
    unfold createOrUpdate
    exact couGo_err retries (by simp [couPrior, hr])
  · intro hr
    unfold createOrUpdate
    exact couGo_ok retries (by simp [couPrior, hr])
  · intro hr hc
    unfold createOrUpdate
    exact couGo_err retries (by simp [couPrior, hr, hc])
  · intro m hr
    unfold createOrUpdate
    exact couGo_ok retries (by simp [couPrior, hr])

/-- A run over Nat models in which every read reports 404. -/
def envMissing : AtomicEnv Nat :=
  ⟨fun _ => .error 404, fun _ _ => none, fun _ m => .ok m⟩

/-- Witness for the read phase: when the read reports 404, mustFind
re-raises 404 with zero saves, and the default mode continues with the
absent prior state. -/
theorem createOrUpdate_read_phase_witness :
    envMissing.read 0 = .error 404
    ∧ createOrUpdate envMissing ⟨none, 3, true⟩ = ⟨.threw 404, 0⟩
    ∧ createOrUpdate envMissing ⟨none, 3, false⟩
        = couAfterPrior envMissing 3 false none 0 3 :=
  ⟨rfl,
   (createOrUpdate_read_phase envMissing 3 404).1 rfl,
   (createOrUpdate_read_phase envMissing 3 404).2.1 rfl⟩
